import Mathlib

/-!
Verification of the bilingual chatbot's orchestration core: language
detection, memoized translation cache, model registry, response pipeline
and the UI turn handler, shallowly embedded from the Python sources
(src/utils.py, src/chatbot.py, src/app_streamlit.py).
-/

namespace ChatbotSpec

/-- Translation direction, `fa_en` or `en_fa` (src/utils.py `translate_text`). -/
inductive Direction where
  | fa_en : Direction
  | en_fa : Direction
deriving DecidableEq

/-- Python exceptions that the orchestration core raises or catches:
`ValueError` and `RuntimeError`, each carrying its message string. -/
inductive PyErr where
  | valueError (msg : String)
  | runtimeError (msg : String)
deriving DecidableEq

/-- `str(e)` on a modelled exception: its message. -/
def errStr : PyErr → String
  | .valueError m => m
  | .runtimeError m => m

/-- Number of characters of `text` in the Persian Unicode block
U+0600 - U+06FF, i.e. `len(re.findall(r"[؀-ۿ]", text))`
in `detect_language` (src/utils.py). -/
def faChars (text : String) : Nat :=
  (text.data.filter (fun c => decide (0x600 ≤ c.toNat ∧ c.toNat ≤ 0x6FF))).length

/-- The heuristic fallback of `detect_language` (src/utils.py lines 50-54):
classify as `"fa"` when the Persian-block character count exceeds
`len(text) / 4`, else `"en"`.  Python compares `fa_chars > len(text)/4`
in exact (float) arithmetic, equivalent over integers to
`4 * fa_chars > len(text)`. -/
def heuristicDetect (text : String) : String :=
  if 4 * faChars text > text.length then "fa" else "en"

/-- External collaborators of the core, as deterministic oracles:
the optional `langdetect` classifier, the translation models, the
dialogue model, and the model loader (success or error message). -/
structure Oracles where
  langdetectAvailable : Bool
  langdetect : String → Except PyErr String
  translate : String → Direction → Except PyErr String
  dialogue : String → Except PyErr String
  loadRes : Except String Unit

/-- `detect_language` (src/utils.py): raises `ValueError` on empty input;
otherwise, if `langdetect` is available and `len(text) > 10`, uses it and
keeps an in-set answer; any `langdetect` exception is absorbed and the
function returns `"en"`; otherwise falls back to the heuristic. -/
def detect_language (o : Oracles) (text : String) : Except PyErr String :=
  if text.length = 0 then
    .error (.valueError "Input must be a non-empty string.")
  else if o.langdetectAvailable && decide (text.length > 10) then
    match o.langdetect text with
    | .error _ => .ok "en"
    | .ok lang =>
      if lang = "fa" || lang = "en" then .ok lang
      else .ok (heuristicDetect text)
  else
    .ok (heuristicDetect text)

/-- Key of the `functools.lru_cache` on `Chatbot._cached_translate`:
the decorator is applied to the unbound method, so the key is
`(self, text, direction)`; instances are modelled by a `Nat` identity. -/
abbrev TKey := Nat × String × Direction

/-- The single class-level LRU cache backing `_cached_translate`,
most-recently-used entry first. -/
abbrev Cache := List (TKey × String)

/-- Lookup in the LRU cache (first, i.e. most recent, occurrence). -/
def cacheGet : Cache → TKey → Option String
  | [], _ => none
  | (k', v) :: rest, k => if k' = k then some v else cacheGet rest k

/-- Remove the (first) entry with key `k`. -/
def cacheErase : Cache → TKey → Cache
  | [], _ => []
  | (k', v) :: rest, k => if k' = k then rest else (k', v) :: cacheErase rest k

/-- Keys currently held by the cache. -/
def keysOf (c : Cache) : List TKey := c.map Prod.fst

/-- `Chatbot._cached_translate` (src/chatbot.py), i.e. one call through the
`lru_cache(maxsize=100)` wrapper: a hit returns the stored value and
refreshes recency without an external call; a miss issues the external
translation call and, on success, inserts at most-recent position,
evicting beyond 100 entries; an external exception is not cached.
Returns `(value, new cache, whether the external call was issued)`. -/
def cachedTranslate (o : Oracles) (c : Cache) (inst : Nat) (text : String)
    (d : Direction) : Except PyErr (String × Cache × Bool) :=
  match cacheGet c (inst, text, d) with
  | some v => .ok (v, ((inst, text, d), v) :: cacheErase c (inst, text, d), false)
  | none =>
    match o.translate text d with
    | .error e => .error e
    | .ok v => .ok (v, (((inst, text, d), v) :: c).take 100, true)

/-- `Chatbot.clear_cache` (src/chatbot.py): `cache_clear` on the shared
`lru_cache` wrapper empties the whole class-level cache, whichever
instance it is invoked through. -/
def clear_cache (_inst : Nat) (_c : Cache) : Cache := []

instance {ε α : Type} [DecidableEq ε] [DecidableEq α] : DecidableEq (Except ε α)
  | .ok a, .ok b =>
    if h : a = b then .isTrue (by rw [h]) else .isFalse (by intro he; cases he; exact h rfl)
  | .error a, .error b =>
    if h : a = b then .isTrue (by rw [h]) else .isFalse (by intro he; cases he; exact h rfl)
  | .ok _, .error _ => .isFalse (by intro he; cases he)
  | .error _, .ok _ => .isFalse (by intro he; cases he)

/-- Outcome of one `Chatbot.initialize_models` call: the raised-or-ok
result, the updated `_is_initialized` flag, and whether a model
acquisition was attempted. -/
structure InitResult where
  out : Except PyErr Unit
  isInit : Bool
  attempted : Bool
deriving DecidableEq

/-- `Chatbot.initialize_models` (src/chatbot.py): a no-op when already
initialized; otherwise attempts acquisition, setting the flag on success,
and on failure wraps the loader error into
`RuntimeError("Model loading failed: ...")`, leaving the flag unset. -/
def initialize_models (loadRes : Except String Unit) (isInit : Bool) : InitResult :=
  if isInit then ⟨.ok (), true, false⟩
  else
    match loadRes with
    | .ok _ => ⟨.ok (), true, true⟩
    | .error m => ⟨.error (.runtimeError ("Model loading failed: " ++ m)), false, true⟩

/-- A Python value passed as `user_input`: a string, or any non-string. -/
inductive PyVal where
  | str (s : String)
  | nonStr
deriving DecidableEq

/-- Outcome of one `Chatbot.generate_response` call: result, updated
`_is_initialized` flag, updated shared cache, and ghost counters of
external effects (load attempts, dialogue-model calls, external
translation calls). -/
structure GenResult where
  out : Except PyErr String
  isInit : Bool
  cache : Cache
  loadAttempts : Nat
  dialogueCalls : Nat
  translateCalls : Nat

/-- The `except` clause of `generate_response`: wrap any pipeline
exception as `RuntimeError(f"Failed to generate response: {str(e)}")`. -/
def wrapGen (e : PyErr) : PyErr :=
  .runtimeError ("Failed to generate response: " ++ errStr e)

/-- Outcome of the `try` block of `generate_response`. -/
structure BodyResult where
  out : Except PyErr String
  cache : Cache
  translateCalls : Nat
  dialogueCalls : Nat

/-- The `try` block of `Chatbot.generate_response` (src/chatbot.py):
detect the language; if `"fa"`, translate input via the cache; invoke the
dialogue model; if `"fa"`, translate the reply back via the cache; any
exception is wrapped by `wrapGen`, with cache mutations made before the
failure kept (exceptions are not cached). -/
def genBody (o : Oracles) (inst : Nat) (c : Cache) (s : String) : BodyResult :=
  match detect_language o s with
  | .error e => ⟨.error (wrapGen e), c, 0, 0⟩
  | .ok lang =>
    if lang = "fa" then
      match cachedTranslate o c inst s .fa_en with
      | .error e => ⟨.error (wrapGen e), c, 1, 0⟩
      | .ok (inputForBot, c1, called1) =>
        match o.dialogue inputForBot with
        | .error e => ⟨.error (wrapGen e), c1, (if called1 then 1 else 0), 1⟩
        | .ok respEn =>
          match cachedTranslate o c1 inst respEn .en_fa with
          | .error e => ⟨.error (wrapGen e), c1, (if called1 then 1 else 0) + 1, 1⟩
          | .ok (respFinal, c2, called2) =>
            ⟨.ok respFinal, c2,
              (if called1 then 1 else 0) + (if called2 then 1 else 0), 1⟩
    else
      match o.dialogue s with
      | .error e => ⟨.error (wrapGen e), c, 0, 1⟩
      | .ok respEn => ⟨.ok respEn, c, 0, 1⟩

/-- `Chatbot.generate_response` (src/chatbot.py): raises `ValueError`
before any other effect when `user_input` is empty or not a string;
otherwise lazily initializes the models (a loader failure propagates as
the unwrapped `RuntimeError` of `initialize_models`), then runs the
pipeline `try` block. -/
def generate_response (o : Oracles) (inst : Nat) (isInit : Bool) (c : Cache)
    (user_input : PyVal) : GenResult :=
  match user_input with
  | .nonStr => ⟨.error (.valueError "Input must be a non-empty string."), isInit, c, 0, 0, 0⟩
  | .str s =>
    if s.length = 0 then
      ⟨.error (.valueError "Input must be a non-empty string."), isInit, c, 0, 0, 0⟩
    else if isInit then
      ⟨(genBody o inst c s).out, true, (genBody o inst c s).cache, 0,
        (genBody o inst c s).dialogueCalls, (genBody o inst c s).translateCalls⟩
    else
      match o.loadRes with
      | .error m =>
        ⟨.error (.runtimeError ("Model loading failed: " ++ m)), false, c, 1, 0, 0⟩
      | .ok _ =>
        ⟨(genBody o inst c s).out, true, (genBody o inst c s).cache, 1,
          (genBody o inst c s).dialogueCalls, (genBody o inst c s).translateCalls⟩

/-- A sender tag of one conversation turn in the Streamlit session. -/
inductive Sender where
  | user : Sender
  | bot : Sender
deriving DecidableEq

/-- Streamlit session state relevant to the orchestration
(src/app_streamlit.py): conversation history, its configured limit,
the chatbot's `_is_initialized` flag, the shared translation cache, and
a ghost counter of external translation calls issued so far. -/
structure AppState where
  history : List (Sender × String)
  historyLimit : Nat
  isInit : Bool
  cache : Cache
  extTranslateCalls : Nat

/-- Fresh session state: empty history, limit 50, uninitialized models,
empty cache. -/
def initialAppState : AppState := ⟨[], 50, false, [], 0⟩

/-- Python's `l[-n:]`: the last `n` elements, except that `l[-0:]` is the
whole list. -/
def pySliceLast (l : List α) (n : Nat) : List α :=
  if n = 0 then l else l.drop (l.length - n)

/-- The history after the user-turn append and the trim step of the
handler: append `("user", input)`, then take `history[-limit:]` when the
length exceeds the limit. -/
def appTrim (st : AppState) (input : String) : List (Sender × String) :=
  if (st.history ++ [(Sender.user, input)]).length > st.historyLimit
  then pySliceLast (st.history ++ [(Sender.user, input)]) st.historyLimit
  else st.history ++ [(Sender.user, input)]

/-- The user-input handler of src/app_streamlit.py for one submitted
message: skip falsy (empty) input; append the user turn; trim to the
history limit when exceeded; detect the language (result only logged);
call `generate_response`; on success append the bot turn and clear the
translation cache when `len(history) % 10 == 0`; on any exception fall
to the `except` handlers, keeping all mutations made before the failure
(user turn appended and trimmed, no bot turn, partial cache updates). -/
def handleInput (o : Oracles) (st : AppState) (input : String) : AppState :=
  if input.length = 0 then st
  else
    match detect_language o input with
    | .error _ => { st with history := appTrim st input }
    | .ok _ =>
      match (generate_response o 0 st.isInit st.cache (.str input)).out with
      | .error _ =>
        ⟨appTrim st input, st.historyLimit,
          (generate_response o 0 st.isInit st.cache (.str input)).isInit,
          (generate_response o 0 st.isInit st.cache (.str input)).cache,
          st.extTranslateCalls +
            (generate_response o 0 st.isInit st.cache (.str input)).translateCalls⟩
      | .ok resp =>
        ⟨appTrim st input ++ [(Sender.bot, resp)], st.historyLimit,
          (generate_response o 0 st.isInit st.cache (.str input)).isInit,
          (if (appTrim st input ++ [(Sender.bot, resp)]).length % 10 = 0
           then clear_cache 0 (generate_response o 0 st.isInit st.cache (.str input)).cache
           else (generate_response o 0 st.isInit st.cache (.str input)).cache),
          st.extTranslateCalls +
            (generate_response o 0 st.isInit st.cache (.str input)).translateCalls⟩

/-- A session: fold the handler over a list of submitted messages. -/
def runTurns (o : Oracles) (st : AppState) (inputs : List String) : AppState :=
  inputs.foldl (handleInput o) st

/-- A concrete all-successful oracle assignment used for witnesses. -/
def okOracle : Oracles where
  langdetectAvailable := false
  langdetect := fun _ => .ok "en"
  translate := fun t _ => .ok ("T" ++ t)
  dialogue := fun _ => .ok "ok"
  loadRes := .ok ()

/-! ### Helper lemmas -/

lemma heuristic_cases (t : String) : heuristicDetect t = "fa" ∨ heuristicDetect t = "en" := by
  unfold heuristicDetect
  split
  · left; rfl
  · right; rfl

lemma detect_ok (o : Oracles) (text : String) (h : text.length ≠ 0) :
    detect_language o text = .ok "fa" ∨ detect_language o text = .ok "en" := by
  unfold detect_language
  rw [if_neg h]
  split
  · split
    · right; rfl
    · split
      · rename_i lang heq hin
        rcases (by simpa using hin : lang = "fa" ∨ lang = "en") with h1 | h1
        · left; rw [h1]
        · right; rw [h1]
      · exact (heuristic_cases text).imp (fun hh => by rw [hh]) (fun hh => by rw [hh])
  · exact (heuristic_cases text).imp (fun hh => by rw [hh]) (fun hh => by rw [hh])

/-! ### C2: model-initialization failure is claimed terminal -/

/-- C2 counterexample: after a failed `initialize_models` call (loader
error `"boom"`), the `_is_initialized` flag is still `false`, so a second
call does re-attempt model acquisition (`attempted = true`) and, the
loader now succeeding, completes without raising — refuting the claim
that every call after a failure re-raises immediately without
re-attempting acquisition. -/
theorem c2_counterexample :
    initialize_models (Except.error "boom") false =
      ⟨.error (.runtimeError "Model loading failed: boom"), false, true⟩ ∧
    (initialize_models (Except.ok ())
        (initialize_models (Except.error "boom") false).isInit).attempted = true ∧
    (initialize_models (Except.ok ())
        (initialize_models (Except.error "boom") false).isInit).out = .ok () :=
  ⟨rfl, rfl, rfl⟩

/-- C2 amended: a failed `initialize_models` call raises
`RuntimeError("Model loading failed: ...")` and leaves the instance
uninitialized, but the failure is not terminal: every subsequent call
while uninitialized re-attempts model acquisition, failing again exactly
when the loader fails again and succeeding when the loader succeeds;
only the initialized state short-circuits without an attempt. -/
theorem c2_amended (lr lr' : Except String Unit) (m : String) :
    (initialize_models lr false).attempted = true ∧
    (lr = .error m →
      initialize_models lr false =
        ⟨.error (.runtimeError ("Model loading failed: " ++ m)), false, true⟩) ∧
    (lr = .ok () → initialize_models lr false = ⟨.ok (), true, true⟩) ∧
    initialize_models lr' true = ⟨.ok (), true, false⟩ := by
  refine ⟨?_, ?_, ?_, rfl⟩
  · cases lr <;> rfl
  · intro h; subst h; rfl
  · intro h; subst h; rfl

/-- C2 amended, witnessed at the loader error `"boom"`. -/
theorem c2_amended_witness :
    initialize_models (Except.error "boom") false =
      ⟨.error (.runtimeError "Model loading failed: boom"), false, true⟩ :=
  (c2_amended (Except.error "boom") (Except.ok ()) "boom").2.1 rfl

/-! ### C4: the detector is total on non-empty strings -/

/-- C4: for every non-empty string and every behaviour of the external
classifier, `detect_language` returns exactly `"fa"` or `"en"` and never
propagates an exception; moreover when the classifier is consulted and
raises, the failure is absorbed and the result defaults to `"en"`. -/
theorem c4 (o : Oracles) (text : String) (h : text.length ≠ 0) :
    (detect_language o text = .ok "fa" ∨ detect_language o text = .ok "en") ∧
    (o.langdetectAvailable = true → 10 < text.length →
      ∀ e, o.langdetect text = .error e → detect_language o text = .ok "en") := by
  refine ⟨detect_ok o text h, ?_⟩
  intro hav hlen e hld
  simp [detect_language, h, hav, hlen, hld]

/-- C4 witnessed on the concrete non-empty input `"hi"`. -/
theorem c4_witness :
    detect_language okOracle "hi" = .ok "fa" ∨ detect_language okOracle "hi" = .ok "en" :=
  (c4 okOracle "hi" (by decide)).1

/-! ### C5: the heuristic fallback -/

/-- C5: the heuristic fallback classifies `text` as `"fa"` exactly when
its Persian-block character count exceeds `length text / 4` (in exact
arithmetic), and as `"en"` otherwise; hence any text with zero
Persian-block characters yields `"en"`, and any all-Persian text of
length at least 4 yields `"fa"`. -/
theorem c5 (text : String) :
    (heuristicDetect text = "fa" ↔ ((text.length : ℚ) / 4 < (faChars text : ℚ))) ∧
    (heuristicDetect text = "en" ↔ ¬ ((text.length : ℚ) / 4 < (faChars text : ℚ))) ∧
    (faChars text = 0 → heuristicDetect text = "en") ∧
    ((∀ c ∈ text.data, 0x600 ≤ c.toNat ∧ c.toNat ≤ 0x6FF) → 4 ≤ text.length →
      heuristicDetect text = "fa") := by
  have key : ((text.length : ℚ) / 4 < (faChars text : ℚ)) ↔
      text.length < 4 * faChars text := by
    rw [div_lt_iff₀ (by norm_num : (0 : ℚ) < 4), mul_comm]
    exact_mod_cast Iff.rfl
  have hlen : text.length = text.data.length := rfl
  constructor
  · rw [key]
    unfold heuristicDetect
    by_cases hgt : 4 * faChars text > text.length
    · rw [if_pos hgt]; simpa using hgt
    · rw [if_neg hgt]
      constructor
      · intro hh; exact absurd hh (by decide)
      · intro hh; omega
  constructor
  · rw [key]
    unfold heuristicDetect
    by_cases hgt : 4 * faChars text > text.length
    · rw [if_pos hgt]
      constructor
      · intro hh; exact absurd hh (by decide)
      · intro hh; omega
    · rw [if_neg hgt]; simpa using hgt
  constructor
  · intro hz
    unfold heuristicDetect
    rw [if_neg (by omega)]
  · intro hall hfour
    have hfc : faChars text = text.length := by
      unfold faChars
      rw [hlen, List.filter_eq_self.mpr]
      intro a ha
      simpa using hall a ha
    unfold heuristicDetect
    rw [if_pos (by omega)]

/-- C5 witnessed on the all-Persian four-character input. -/
theorem c5_witness : heuristicDetect "سلام" = "fa" :=
  (c5 "سلام").2.2.2 (by decide) (by decide)

/-! ### Cache lemmas -/

lemma cacheGet_cons_self (c : Cache) (k : TKey) (v : String) :
    cacheGet ((k, v) :: c) k = some v := by
  simp [cacheGet]

lemma cacheGet_eq_none_iff (c : Cache) (k : TKey) :
    cacheGet c k = none ↔ k ∉ keysOf c := by
  induction c with
  | nil => simp [cacheGet, keysOf]
  | cons hd tl ih =>
    obtain ⟨k', v⟩ := hd
    by_cases hk : k' = k
    · subst hk; simp [cacheGet, keysOf]
    · simp only [cacheGet, if_neg hk, keysOf, List.map_cons, List.mem_cons, ih]
      constructor
      · intro hn hmem
        rcases hmem with hmem | hmem
        · exact hk hmem.symm
        · exact hn hmem
      · intro hn hmem
        exact hn (Or.inr hmem)

lemma cacheGet_some_mem (c : Cache) (k : TKey) (v : String)
    (h : cacheGet c k = some v) : k ∈ keysOf c := by
  by_contra hmem
  rw [← cacheGet_eq_none_iff] at hmem
  rw [h] at hmem
  cases hmem

lemma cacheErase_length (c : Cache) (k : TKey) (h : k ∈ keysOf c) :
    (cacheErase c k).length + 1 = c.length := by
  induction c with
  | nil => cases h
  | cons hd tl ih =>
    obtain ⟨k', v⟩ := hd
    by_cases hk : k' = k
    · subst hk; simp [cacheErase]
    · have hmem : k ∈ keysOf tl := by
        simp only [keysOf, List.map_cons, List.mem_cons] at h
        rcases h with h1 | h1
        · exact absurd h1.symm hk
        · exact h1
      simp only [cacheErase, if_neg hk, List.length_cons]
      rw [← ih hmem]

lemma take100_cons (x : α) (l : List α) :
    (x :: l.take 100).take 100 = (x :: l).take 100 := by
  rw [show (100 : Nat) = 99 + 1 by norm_num, List.take_succ_cons, List.take_succ_cons,
    List.take_take]
  norm_num

/-- A cache miss followed by a successful external call: the value is
inserted most-recent-first and the cache truncated to 100 entries. -/
lemma cachedTranslate_miss (o : Oracles) (c : Cache) (k : TKey) (v : String)
    (hg : cacheGet c k = none) (ht : o.translate k.2.1 k.2.2 = .ok v) :
    cachedTranslate o c k.1 k.2.1 k.2.2 = .ok (v, ((k, v) :: c).take 100, true) := by
  obtain ⟨i, t, d⟩ := k
  unfold cachedTranslate
  rw [hg, ht]

/-- A cache hit: the stored value is returned without an external call
and the entry moves to the most-recent position. -/
lemma cachedTranslate_hit (o : Oracles) (c : Cache) (k : TKey) (v : String)
    (hg : cacheGet c k = some v) :
    cachedTranslate o c k.1 k.2.1 k.2.2 = .ok (v, (k, v) :: cacheErase c k, false) := by
  obtain ⟨i, t, d⟩ := k
  unfold cachedTranslate
  rw [hg]

/-! ### C6: idempotence of the cached translation -/

/-- C6: if a `_cached_translate` call with key `(inst, t, d)` succeeds
(hitting or populating the cache), an immediately repeated call with the
identical arguments is a cache hit: it issues no external translation
call (flag `false`) and returns exactly the value of the first call. -/
theorem c6 (o : Oracles) (c : Cache) (inst : Nat) (t : String) (d : Direction)
    (v : String) (c₁ : Cache) (b : Bool)
    (h : cachedTranslate o c inst t d = .ok (v, c₁, b)) :
    ∃ c₂, cachedTranslate o c₁ inst t d = .ok (v, c₂, false) := by
  have hget : cacheGet c₁ (inst, t, d) = some v := by
    unfold cachedTranslate at h
    cases hg : cacheGet c (inst, t, d) with
    | some v₀ =>
      rw [hg] at h
      simp only [Except.ok.injEq, Prod.mk.injEq] at h
      obtain ⟨hv, hc, hb⟩ := h
      rw [← hc, ← hv]
      exact cacheGet_cons_self _ _ _
    | none =>
      rw [hg] at h
      cases ht : o.translate t d with
      | error e => rw [ht] at h; cases h
      | ok v₀ =>
        rw [ht] at h
        simp only [Except.ok.injEq, Prod.mk.injEq] at h
        obtain ⟨hv, hc, hb⟩ := h
        rw [← hc, ← hv, show ((((inst, t, d), v₀) :: c).take 100) =
          ((inst, t, d), v₀) :: c.take 99 from by
            rw [show (100 : Nat) = 99 + 1 by norm_num, List.take_succ_cons]]
        exact cacheGet_cons_self _ _ _
  exact ⟨((inst, t, d), v) :: cacheErase c₁ (inst, t, d),
    cachedTranslate_hit o c₁ (inst, t, d) v hget⟩

/-- C6 witnessed: a first call on an empty cache populates it, and the
repeated identical call is a hit returning the same value. -/
theorem c6_witness :
    ∃ c₂, cachedTranslate okOracle [((0, "hi", Direction.fa_en), "Thi")] 0 "hi"
      Direction.fa_en = .ok ("Thi", c₂, false) :=
  c6 okOracle [] 0 "hi" Direction.fa_en "Thi" [((0, "hi", Direction.fa_en), "Thi")]
    true rfl

/-! ### C7: capacity bound and LRU eviction -/

/-- One cache entry produced by inserting key `k` under the total
translation function `f`. -/
def cEntry (f : String → Direction → String) (k : TKey) : TKey × String :=
  (k, f k.2.1 k.2.2)

/-- Oracles whose translation calls always succeed, computed by `f`. -/
def oracleOf (f : String → Direction → String) : Oracles where
  langdetectAvailable := false
  langdetect := fun _ => .ok "en"
  translate := fun t d => .ok (f t d)
  dialogue := fun _ => .ok "ok"
  loadRes := .ok ()

/-- Successively call `_cached_translate` on each key of `ks`. -/
def insertRun (f : String → Direction → String) (ks : List TKey) (c : Cache) :
    Cache :=
  ks.foldl (fun acc k =>
    match cachedTranslate (oracleOf f) acc k.1 k.2.1 k.2.2 with
    | .ok r => r.2.1
    | .error _ => acc) c

lemma keysOf_take_map (f : String → Direction → String) (l : List TKey) (n : Nat) :
    keysOf ((l.map (cEntry f)).take n) = l.take n := by
  unfold keysOf
  rw [← List.map_take, List.map_map]
  have hid : (Prod.fst ∘ cEntry f) = id := by
    funext k; rfl
  rw [hid, List.map_id]

lemma insertRun_fresh (f : String → Direction → String) :
    ∀ (ks rs : List TKey), ks.Nodup → (∀ k ∈ ks, k ∉ rs) →
      insertRun f ks ((rs.map (cEntry f)).take 100) =
        ((ks.reverse ++ rs).map (cEntry f)).take 100 := by
  intro ks
  induction ks with
  | nil => intro rs _ _; simp [insertRun]
  | cons k ks' ih =>
    intro rs hnd hdisj
    have hkfresh : cacheGet ((rs.map (cEntry f)).take 100) k = none := by
      rw [cacheGet_eq_none_iff, keysOf_take_map]
      intro hmem
      exact hdisj k (List.mem_cons_self k ks') (List.take_subset _ _ hmem)
    have hstep :
        insertRun f (k :: ks') ((rs.map (cEntry f)).take 100) =
          insertRun f ks' (((k :: rs).map (cEntry f)).take 100) := by
      unfold insertRun
      rw [List.foldl_cons]
      congr 1
      rw [cachedTranslate_miss (oracleOf f) _ k (f k.2.1 k.2.2) hkfresh rfl]
      show ((k, f k.2.1 k.2.2) :: (rs.map (cEntry f)).take 100).take 100 =
        ((k :: rs).map (cEntry f)).take 100
      rw [take100_cons]
      rfl
    have hnd' : ks'.Nodup := (List.nodup_cons.mp hnd).2
    have hknotin : k ∉ ks' := (List.nodup_cons.mp hnd).1
    have hdisj' : ∀ k' ∈ ks', k' ∉ k :: rs := by
      intro k' hk' hmem
      rcases List.mem_cons.mp hmem with h1 | h1
      · exact hknotin (h1 ▸ hk')
      · exact hdisj k' (List.mem_cons_of_mem _ hk') h1
    rw [hstep, ih (k :: rs) hnd' hdisj', List.reverse_cons, List.append_assoc,
      List.singleton_append]

/-- C7: (a) every successful `_cached_translate` call preserves the
100-entry bound on the shared cache (and `clear_cache` trivially does);
(b) after inserting more than 100 distinct keys into an empty cache, the
least-recently-used key — the first one inserted — has been evicted: its
lookup misses and a repeated call issues the external translation call
again. -/
theorem c7 :
    (∀ (o : Oracles) (c : Cache) (inst : Nat) (t : String) (d : Direction)
        (v : String) (c' : Cache) (b : Bool), c.length ≤ 100 →
        cachedTranslate o c inst t d = .ok (v, c', b) → c'.length ≤ 100) ∧
    (∀ (inst : Nat) (c : Cache), (clear_cache inst c).length ≤ 100) ∧
    (∀ (f : String → Direction → String) (k₀ : TKey) (ks : List TKey),
        (k₀ :: ks).Nodup → 100 ≤ ks.length →
        cacheGet (insertRun f (k₀ :: ks) []) k₀ = none ∧
        ∃ c', cachedTranslate (oracleOf f) (insertRun f (k₀ :: ks) [])
            k₀.1 k₀.2.1 k₀.2.2 = .ok (f k₀.2.1 k₀.2.2, c', true)) := by
  refine ⟨?_, ?_, ?_⟩
  · intro o c inst t d v c' b hlen h
    unfold cachedTranslate at h
    cases hg : cacheGet c (inst, t, d) with
    | some v₀ =>
      rw [hg] at h
      simp only [Except.ok.injEq, Prod.mk.injEq] at h
      obtain ⟨hv, hc, hb⟩ := h
      have hmem := cacheGet_some_mem c (inst, t, d) v₀ hg
      have herase := cacheErase_length c (inst, t, d) hmem
      rw [← hc]
      simp only [List.length_cons]
      omega
    | none =>
      rw [hg] at h
      cases ht : o.translate t d with
      | error e => rw [ht] at h; cases h
      | ok v₀ =>
        rw [ht] at h
        simp only [Except.ok.injEq, Prod.mk.injEq] at h
        obtain ⟨hv, hc, hb⟩ := h
        rw [← hc]
        exact List.length_take_le _ _
  · intro inst c
    simp [clear_cache]
  · intro f k₀ ks hnd hlen
    have hrun : insertRun f (k₀ :: ks) [] =
        ((ks.reverse ++ [k₀]).map (cEntry f)).take 100 := by
      have h0 : ([] : Cache) = (([] : List TKey).map (cEntry f)).take 100 := rfl
      rw [h0, insertRun_fresh f (k₀ :: ks) [] hnd (by simp), List.append_nil,
        List.reverse_cons]
    have hget : cacheGet (insertRun f (k₀ :: ks) []) k₀ = none := by
      rw [hrun, cacheGet_eq_none_iff, keysOf_take_map]
      intro hmem
      have h1 : (100 : Nat) ≤ ks.reverse.length := by
        rw [List.length_reverse]; exact hlen
      rw [List.take_append_of_le_length h1] at hmem
      have h2 : k₀ ∈ ks.reverse := List.take_subset _ _ hmem
      exact (List.nodup_cons.mp hnd).1 (List.mem_reverse.mp h2)
    exact ⟨hget, ⟨_, cachedTranslate_miss (oracleOf f) _ k₀ (f k₀.2.1 k₀.2.2) hget rfl⟩⟩

/-- C7 witnessed on 101 concrete distinct keys. -/
theorem c7_witness :
    cacheGet (insertRun (fun _ _ => "v")
      (((0 : Nat), "k", Direction.fa_en) ::
        (List.range 100).map (fun i => ((0 : Nat), Nat.repr i, Direction.en_fa))) [])
      ((0 : Nat), "k", Direction.fa_en) = none :=
  (c7.2.2 (fun _ _ => "v") ((0 : Nat), "k", Direction.fa_en)
    ((List.range 100).map (fun i => ((0 : Nat), Nat.repr i, Direction.en_fa)))
    (by decide) (by decide)).1

/-! ### C8: input validation of `generate_response` -/

lemma string_eq_empty_of_length (s : String) (h : s.length = 0) : s = "" := by
  obtain ⟨data⟩ := s
  cases data with
  | nil => rfl
  | cons a l => simp [String.length] at h

/-- Specialised miss equation for `cachedTranslate` with unpacked key. -/
lemma cachedTranslate_miss3 (o : Oracles) (c : Cache) (inst : Nat) (t : String)
    (d : Direction) (v : String) (hg : cacheGet c (inst, t, d) = none)
    (ht : o.translate t d = .ok v) :
    cachedTranslate o c inst t d = .ok (v, (((inst, t, d), v) :: c).take 100, true) := by
  unfold cachedTranslate
  rw [hg, ht]

/-- Specialised hit equation for `cachedTranslate` with unpacked key. -/
lemma cachedTranslate_hit3 (o : Oracles) (c : Cache) (inst : Nat) (t : String)
    (d : Direction) (v : String) (hg : cacheGet c (inst, t, d) = some v) :
    cachedTranslate o c inst t d =
      .ok (v, ((inst, t, d), v) :: cacheErase c (inst, t, d), false) := by
  unfold cachedTranslate
  rw [hg]

/-- A `_cached_translate` call only fails when the external call fails. -/
lemma cachedTranslate_ne_error (o : Oracles) (c : Cache) (inst : Nat) (t : String)
    (d : Direction) (hok : ∃ v, o.translate t d = .ok v) (e : PyErr) :
    cachedTranslate o c inst t d ≠ .error e := by
  obtain ⟨v, hv⟩ := hok
  intro hcon
  cases hg : cacheGet c (inst, t, d) with
  | some v₀ => rw [cachedTranslate_hit3 o c inst t d v₀ hg] at hcon; cases hcon
  | none => rw [cachedTranslate_miss3 o c inst t d v hg hv] at hcon; cases hcon

/-- Every error the pipeline `try` block produces is `wrapGen`-wrapped. -/
lemma genBody_error_shape (o : Oracles) (inst : Nat) (c : Cache) (s : String)
    (e : PyErr) (h : (genBody o inst c s).out = .error e) :
    ∃ cause, e = wrapGen cause := by
  unfold genBody at h
  split at h
  · exact ⟨_, (by cases h; rfl)⟩
  · split at h
    · split at h
      · exact ⟨_, (by cases h; rfl)⟩
      · split at h
        · exact ⟨_, (by cases h; rfl)⟩
        · split at h
          · exact ⟨_, (by cases h; rfl)⟩
          · cases h
    · split at h
      · exact ⟨_, (by cases h; rfl)⟩
      · cases h

set_option linter.unusedTactic false in
set_option linter.unreachableTactic false in
/-- Ghost-counter bounds of the pipeline `try` block. -/
lemma genBody_counts (o : Oracles) (inst : Nat) (c : Cache) (s : String) :
    (genBody o inst c s).translateCalls ≤ 2 ∧ (genBody o inst c s).dialogueCalls ≤ 1 := by
  unfold genBody
  (repeat' split) <;> constructor <;> dsimp only <;>
    first
    | (split_ifs <;> omega)
    | omega

/-- For a valid (non-empty string) input, `generate_response` never
raises `ValueError`: pipeline and loading failures are `RuntimeError`s. -/
lemma gen_not_valueError (o : Oracles) (inst : Nat) (isInit : Bool) (c : Cache)
    (s : String) (hs : s.length ≠ 0) (m : String) :
    (generate_response o inst isInit c (.str s)).out ≠ .error (.valueError m) := by
  intro hcon
  simp only [generate_response] at hcon
  rw [if_neg hs] at hcon
  split at hcon
  · obtain ⟨cause, hc⟩ := genBody_error_shape o inst c s _ hcon
    simp [wrapGen] at hc
  · split at hcon
    · simp only [] at hcon
      cases hcon
    · obtain ⟨cause, hc⟩ := genBody_error_shape o inst c s _ hcon
      simp [wrapGen] at hc

/-- C8: `generate_response` raises `ValueError` exactly when the input is
empty or not a string, and in that case it returns before any model
loading, dialogue inference or translation-cache access: the registry
flag and the cache are unchanged and all effect counters are zero. -/
theorem c8 (o : Oracles) (isInit : Bool) (c : Cache) (inp : PyVal) :
    ((∃ m, (generate_response o 0 isInit c inp).out = .error (.valueError m)) ↔
      (inp = .nonStr ∨ inp = .str "")) ∧
    ((inp = .nonStr ∨ inp = .str "") →
      generate_response o 0 isInit c inp =
        ⟨.error (.valueError "Input must be a non-empty string."), isInit, c, 0, 0, 0⟩) := by
  have hback : (inp = .nonStr ∨ inp = .str "") →
      generate_response o 0 isInit c inp =
        ⟨.error (.valueError "Input must be a non-empty string."), isInit, c, 0, 0, 0⟩ := by
    rintro (h | h) <;> subst h <;> rfl
  refine ⟨⟨?_, ?_⟩, hback⟩
  · rintro ⟨m, hm⟩
    by_contra hval
    push_neg at hval
    cases inp with
    | nonStr => exact hval.1 rfl
    | str s =>
      have hs : s.length ≠ 0 := by
        intro h0
        exact hval.2 (by rw [string_eq_empty_of_length s h0])
      exact gen_not_valueError o 0 isInit c s hs m hm
  · intro h
    exact ⟨"Input must be a non-empty string.", by rw [hback h]⟩

/-- C8 witnessed at the empty-string input. -/
theorem c8_witness :
    generate_response okOracle 0 false [] (.str "") =
      ⟨.error (.valueError "Input must be a non-empty string."), false, [], 0, 0, 0⟩ :=
  (c8 okOracle false [] (.str "")).2 (Or.inr rfl)

/-! ### C9: pipeline failures are wrapped; the bot turn is not appended -/

/-- A concrete oracle assignment whose dialogue model always fails. -/
def failOracle : Oracles where
  langdetectAvailable := false
  langdetect := fun _ => .ok "en"
  translate := fun t _ => .ok ("T" ++ t)
  dialogue := fun _ => .error (.runtimeError "boom")
  loadRes := .ok ()

/-- C9: for a valid input, every error `generate_response` surfaces is a
`RuntimeError` carrying the original cause — either the loader failure
message or a `wrapGen`-wrapped pipeline exception; no step is retried
(at most one load attempt, one dialogue call, two external translation
calls per invocation); and when generation fails, the handler leaves the
history at exactly the appended-and-trimmed user turn: the failed turn's
bot entry is not appended. -/
theorem c9 (o : Oracles) (isInit : Bool) (c : Cache) (s : String) (st : AppState)
    (input : String) (hs : s.length ≠ 0) (hin : input.length ≠ 0) :
    (∀ e, (generate_response o 0 isInit c (.str s)).out = .error e →
      (∃ m, e = .runtimeError ("Model loading failed: " ++ m) ∧
        o.loadRes = .error m ∧ isInit = false) ∨
      (∃ cause, e = wrapGen cause)) ∧
    (generate_response o 0 isInit c (.str s)).loadAttempts ≤ 1 ∧
    (generate_response o 0 isInit c (.str s)).dialogueCalls ≤ 1 ∧
    (generate_response o 0 isInit c (.str s)).translateCalls ≤ 2 ∧
    (∀ e, (generate_response o 0 st.isInit st.cache (.str input)).out = .error e →
      (handleInput o st input).history = appTrim st input) := by
  refine ⟨?_, ?_, ?_, ?_, ?_⟩
  · intro e he
    simp only [generate_response] at he
    rw [if_neg hs] at he
    split at he
    · exact Or.inr (genBody_error_shape o 0 c s e he)
    · rename_i hninit
      split at he
      · rename_i m hload
        left
        dsimp only at he
        cases he
        exact ⟨m, rfl, hload, by simpa using hninit⟩
      · dsimp only at he
        exact Or.inr (genBody_error_shape o 0 c s e he)
  · simp only [generate_response]
    rw [if_neg hs]
    split
    · dsimp only; omega
    · split <;> (dsimp only; omega)
  · simp only [generate_response]
    rw [if_neg hs]
    split
    · dsimp only; exact (genBody_counts o 0 c s).2
    · split
      · dsimp only; omega
      · dsimp only; exact (genBody_counts o 0 c s).2
  · simp only [generate_response]
    rw [if_neg hs]
    split
    · dsimp only; exact (genBody_counts o 0 c s).1
    · split
      · dsimp only; omega
      · dsimp only; exact (genBody_counts o 0 c s).1
  · intro e he
    unfold handleInput
    rw [if_neg hin]
    rcases detect_ok o input hin with hdet | hdet <;>
      (rw [hdet]; dsimp only; rw [he])

/-- C9 witnessed: a failing dialogue model on the first turn leaves only
the user turn in the history. -/
theorem c9_witness :
    (handleInput failOracle initialAppState "hi").history = [(Sender.user, "hi")] := by
  have h := (c9 failOracle false [] "hi" initialAppState "hi" (by decide) (by decide)).2.2.2.2
    (wrapGen (.runtimeError "boom")) rfl
  exact h.trans rfl

/-! ### C1: the history cap -/

set_option maxRecDepth 4000 in
/-- C1 counterexample: in a fresh session with the default cap 50, after
26 successful turns (user + bot appends each) the conversation history
holds 51 entries — the bot-turn append is not followed by a trim, so the
history does exceed the configured cap after that mutation. -/
theorem c1_counterexample :
    (runTurns okOracle initialAppState (List.replicate 26 "hi")).history.length = 51 ∧
    ¬ (runTurns okOracle initialAppState (List.replicate 26 "hi")).history.length ≤
        initialAppState.historyLimit := by
  have h51 :
      (runTurns okOracle initialAppState (List.replicate 26 "hi")).history.length = 51 := rfl
  refine ⟨h51, ?_⟩
  rw [h51]
  decide

/-- C1 amended: with a positive cap and the turn-boundary invariant
`length ≤ cap + 1` (which a handled turn preserves, last conjunct), the
mutation points of one turn satisfy: the user-turn append reaches at
most cap + 2 entries; the trim restores at most cap — exactly cap when
the cap was exceeded, retaining precisely the most recent turns as the
suffix of the appended history in their original order; and the
bot-turn append, which no trim follows, reaches at most cap + 1
entries. -/
theorem c1_amended (o : Oracles) (st : AppState) (input resp : String)
    (hpos : 0 < st.historyLimit) (hlen : st.history.length ≤ st.historyLimit + 1) :
    (st.history ++ [(Sender.user, input)]).length ≤ st.historyLimit + 2 ∧
    (appTrim st input).length ≤ st.historyLimit ∧
    ((st.history ++ [(Sender.user, input)]).length > st.historyLimit →
      (appTrim st input).length = st.historyLimit ∧
      st.history ++ [(Sender.user, input)] =
        (st.history ++ [(Sender.user, input)]).take
          ((st.history ++ [(Sender.user, input)]).length - st.historyLimit) ++
          appTrim st input) ∧
    (appTrim st input ++ [(Sender.bot, resp)]).length ≤ st.historyLimit + 1 ∧
    (handleInput o st input).history.length ≤ st.historyLimit + 1 := by
  have hslice : ∀ (l : List (Sender × String)) (n : Nat), 0 < n → n ≤ l.length →
      (pySliceLast l n).length = n ∧ l = l.take (l.length - n) ++ pySliceLast l n := by
    intro l n hn hnl
    unfold pySliceLast
    rw [if_neg (by omega)]
    exact ⟨by rw [List.length_drop]; omega, (List.take_append_drop _ l).symm⟩
  have happend : (st.history ++ [(Sender.user, input)]).length ≤ st.historyLimit + 2 := by
    rw [List.length_append, List.length_singleton]
    omega
  have htrimEq : (st.history ++ [(Sender.user, input)]).length > st.historyLimit →
      (appTrim st input).length = st.historyLimit ∧
      st.history ++ [(Sender.user, input)] =
        (st.history ++ [(Sender.user, input)]).take
          ((st.history ++ [(Sender.user, input)]).length - st.historyLimit) ++
          appTrim st input := by
    intro hgt
    have hx := hslice (st.history ++ [(Sender.user, input)]) st.historyLimit hpos (by omega)
    unfold appTrim
    rw [if_pos hgt]
    exact hx
  have htrim : (appTrim st input).length ≤ st.historyLimit := by
    by_cases hgt : (st.history ++ [(Sender.user, input)]).length > st.historyLimit
    · exact le_of_eq (htrimEq hgt).1
    · unfold appTrim
      rw [if_neg hgt]
      omega
  have hbot : (appTrim st input ++ [(Sender.bot, resp)]).length ≤ st.historyLimit + 1 := by
    rw [List.length_append, List.length_singleton]
    omega
  refine ⟨happend, htrim, htrimEq, hbot, ?_⟩
  unfold handleInput
  split
  · exact hlen
  · split
    · dsimp only
      omega
    · split
      · dsimp only
        omega
      · dsimp only
        rw [List.length_append, List.length_singleton]
        omega

/-- C1 amended, witnessed on a fresh session and one turn. -/
theorem c1_amended_witness :
    (handleInput okOracle initialAppState "hi").history.length ≤
      initialAppState.historyLimit + 1 :=
  (c1_amended okOracle initialAppState "hi" "ok" (by decide) (by decide)).2.2.2.2

/-! ### C3: the periodic cache clear on the 10th turn -/

/-- With total success oracles, the pipeline `try` block succeeds. -/
lemma genBody_ok (o : Oracles) (inst : Nat) (c : Cache) (s : String)
    (hs : s.length ≠ 0) (hd : ∀ t, ∃ v, o.dialogue t = .ok v)
    (ht : ∀ t d, ∃ v, o.translate t d = .ok v) :
    ∃ v, (genBody o inst c s).out = .ok v := by
  unfold genBody
  split
  · rename_i e heq
    rcases detect_ok o s hs with h | h <;> rw [h] at heq <;> cases heq
  · rename_i lang heq
    split
    · split
      · rename_i e heq2
        exact absurd heq2
          (cachedTranslate_ne_error o c inst s Direction.fa_en (ht s Direction.fa_en) e)
      · rename_i x c1 called heq2
        split
        · rename_i e heq3
          obtain ⟨w, hw⟩ := hd x
          rw [hw] at heq3
          cases heq3
        · rename_i respEn heq3
          split
          · rename_i e heq4
            exact absurd heq4 (cachedTranslate_ne_error o c1 inst respEn Direction.en_fa
              (ht respEn Direction.en_fa) e)
          · exact ⟨_, rfl⟩
    · split
      · rename_i e heq2
        obtain ⟨w, hw⟩ := hd s
        rw [hw] at heq2
        cases heq2
      · exact ⟨_, rfl⟩

/-- With a succeeding loader and total success oracles,
`generate_response` on a valid input succeeds and marks the instance
initialized. -/
lemma gen_ok (o : Oracles) (inst : Nat) (isInit : Bool) (c : Cache) (s : String)
    (hs : s.length ≠ 0) (hl : o.loadRes = .ok ())
    (hd : ∀ t, ∃ v, o.dialogue t = .ok v) (ht : ∀ t d, ∃ v, o.translate t d = .ok v) :
    (∃ v, (generate_response o inst isInit c (.str s)).out = .ok v) ∧
    (generate_response o inst isInit c (.str s)).isInit = true := by
  simp only [generate_response]
  rw [if_neg hs]
  by_cases hi : isInit = true
  · rw [if_pos hi]
    exact ⟨genBody_ok o inst c s hs hd ht, rfl⟩
  · rw [if_neg hi, hl]
    exact ⟨genBody_ok o inst c s hs hd ht, rfl⟩

/-- One successful turn within the first 25: the history grows by
exactly two entries, the limit is preserved, and the cache is cleared
exactly when the resulting length is divisible by 10. -/
lemma handle_step (o : Oracles) (st : AppState) (input : String)
    (hl : o.loadRes = .ok ()) (hd : ∀ t, ∃ v, o.dialogue t = .ok v)
    (ht : ∀ t d, ∃ v, o.translate t d = .ok v)
    (hin : input.length ≠ 0) (hlim : st.historyLimit = 50)
    (hlen : st.history.length + 2 ≤ 50) :
    (handleInput o st input).history.length = st.history.length + 2 ∧
    (handleInput o st input).historyLimit = 50 ∧
    ((st.history.length + 2) % 10 = 0 → (handleInput o st input).cache = []) := by
  obtain ⟨⟨v, hv⟩, hinit2⟩ := gen_ok o 0 st.isInit st.cache input hin hl hd ht
  have htrim : appTrim st input = st.history ++ [(Sender.user, input)] := by
    unfold appTrim
    rw [if_neg]
    rw [List.length_append, List.length_singleton, hlim]
    omega
  unfold handleInput
  rw [if_neg hin]
  rcases detect_ok o input hin with hdet | hdet <;>
  · rw [hdet]
    dsimp only
    rw [hv]
    dsimp only
    refine ⟨?_, hlim, ?_⟩
    · rw [htrim, List.length_append, List.length_append, List.length_singleton,
        List.length_singleton]
    · intro hmod
      have hc : ((st.history ++ [(Sender.user, input)]) ++ [(Sender.bot, v)]).length % 10
          = 0 := by
        rw [List.length_append, List.length_append, List.length_singleton,
          List.length_singleton]
        omega
      rw [htrim, if_pos hc]
      rfl

/-- Folding successful turns: the history length grows by two per turn
while within the untrimmed regime. -/
lemma run_lengths (o : Oracles) (hl : o.loadRes = .ok ())
    (hd : ∀ t, ∃ v, o.dialogue t = .ok v) (ht : ∀ t d, ∃ v, o.translate t d = .ok v) :
    ∀ (inputs : List String) (st : AppState),
      (∀ i ∈ inputs, i.length ≠ 0) → st.historyLimit = 50 →
      st.history.length + 2 * inputs.length ≤ 50 →
      (runTurns o st inputs).history.length = st.history.length + 2 * inputs.length ∧
      (runTurns o st inputs).historyLimit = 50 := by
  intro inputs
  induction inputs with
  | nil =>
    intro st _ hlim _
    exact ⟨by simp [runTurns], by simp [runTurns, hlim]⟩
  | cons i rest ih =>
    intro st hne hlim hbound
    have hblen : st.history.length + 2 ≤ 50 := by
      simp only [List.length_cons] at hbound
      omega
    have hstep := handle_step o st i hl hd ht (hne i (by simp)) hlim hblen
    have hrun : runTurns o st (i :: rest) = runTurns o (handleInput o st i) rest := by
      simp [runTurns]
    have hnext := ih (handleInput o st i) (fun j hj => hne j (by simp [hj]))
      hstep.2.1 (by rw [hstep.1]; simp only [List.length_cons] at hbound; omega)
    rw [hrun]
    refine ⟨?_, hnext.2⟩
    rw [hnext.1, hstep.1]
    simp only [List.length_cons]
    ring

/-- C3: in a fresh session, any run of ten successful turns (non-empty
inputs, all-successful oracles) ends with the translation cache cleared
— the 10th turn's bot append brings the history to 20 entries,
triggering the periodic clear — so on the following turn every
translation request, in particular one identical to a previously cached
one, is a cache miss that issues the external translation call again. -/
theorem c3 (o : Oracles) (inputs : List String)
    (hl : o.loadRes = .ok ()) (hd : ∀ t, ∃ v, o.dialogue t = .ok v)
    (ht : ∀ t d, ∃ v, o.translate t d = .ok v)
    (hcount : inputs.length = 10) (hne : ∀ i ∈ inputs, i.length ≠ 0) :
    (runTurns o initialAppState inputs).cache = [] ∧
    (∀ t d, ∃ v c', cachedTranslate o (runTurns o initialAppState inputs).cache 0 t d =
      .ok (v, c', true)) := by
  have hnenil : inputs ≠ [] := by
    intro h
    rw [h] at hcount
    cases hcount
  have hsplit : inputs.dropLast ++ [inputs.getLast hnenil] = inputs :=
    List.dropLast_append_getLast hnenil
  have hprelen : inputs.dropLast.length = 9 := by
    have := congrArg List.length hsplit
    simp only [List.length_append, List.length_singleton] at this
    omega
  have hpre := run_lengths o hl hd ht inputs.dropLast initialAppState
    (fun i hi => hne i (List.dropLast_subset _ hi)) rfl
    (by rw [hprelen]; simp [initialAppState])
  have h18 : (runTurns o initialAppState inputs.dropLast).history.length = 18 := by
    rw [hpre.1, hprelen]
    simp [initialAppState]
  have hstep := handle_step o (runTurns o initialAppState inputs.dropLast)
    (inputs.getLast hnenil) hl hd ht (hne _ (List.getLast_mem hnenil)) hpre.2
    (by omega)
  have hfold : runTurns o initialAppState inputs =
      handleInput o (runTurns o initialAppState inputs.dropLast)
        (inputs.getLast hnenil) := by
    conv_lhs => rw [← hsplit]
    simp [runTurns, List.foldl_append]
  have hcache : (runTurns o initialAppState inputs).cache = [] := by
    rw [hfold]
    exact hstep.2.2 (by rw [h18])
  refine ⟨hcache, ?_⟩
  intro t d
  obtain ⟨v, hv⟩ := ht t d
  rw [hcache]
  exact ⟨v, _, cachedTranslate_miss3 o [] 0 t d v rfl hv⟩

/-- C3 witnessed on ten concrete Persian turns. -/
theorem c3_witness :
    (runTurns okOracle initialAppState (List.replicate 10 "سلام")).cache = [] :=
  (c3 okOracle (List.replicate 10 "سلام") rfl (fun _ => ⟨"ok", rfl⟩)
    (fun t _ => ⟨"T" ++ t, rfl⟩) (by decide) (by decide)).1

/-! ### C10: the cache is one class-level structure shared by instances -/

lemma cacheGet_append_of_not_mem (l₁ l₂ : Cache) (k : TKey) (h : k ∉ keysOf l₁) :
    cacheGet (l₁ ++ l₂) k = cacheGet l₂ k := by
  induction l₁ with
  | nil => rfl
  | cons hd tl ih =>
    obtain ⟨k', v⟩ := hd
    have h' : k ∉ keysOf tl := by
      intro hm
      exact h (by simp only [keysOf, List.map_cons, List.mem_cons]; exact Or.inr hm)
    have hk : k' ≠ k := by
      intro he
      exact h (by simp only [keysOf, List.map_cons, List.mem_cons]; exact Or.inl he.symm)
    simp only [List.cons_append, cacheGet, if_neg hk]
    exact ih h'

/-- C10: the `lru_cache` on the unbound `_cached_translate` is one
class-level structure keyed on the instance, so its 100-entry capacity is
shared: with the shared cache full (99 fresher entries plus instance
`b`'s entry in least-recent position, present and hit-able), a single
miss-insert by a *different* instance `a` evicts `b`'s entry, whose
lookup then misses; and `clear_cache` invoked through instance `a`
empties the whole shared structure, so `b`'s previously cached entry is
gone for every instance. -/
theorem c10 (o : Oracles) (a b : Nat) (tA tB : String) (dA dB : Direction)
    (cfront : Cache) (vA vB : String)
    (hflen : cfront.length = 99)
    (hBfront : (b, tB, dB) ∉ keysOf cfront)
    (hfresh : cacheGet (cfront ++ [((b, tB, dB), vB)]) (a, tA, dA) = none)
    (hOr : o.translate tA dA = .ok vA) :
    cacheGet (cfront ++ [((b, tB, dB), vB)]) (b, tB, dB) = some vB ∧
    cachedTranslate o (cfront ++ [((b, tB, dB), vB)]) a tA dA =
      .ok (vA, ((a, tA, dA), vA) :: cfront, true) ∧
    cacheGet (((a, tA, dA), vA) :: cfront) (b, tB, dB) = none ∧
    clear_cache a (cfront ++ [((b, tB, dB), vB)]) = [] ∧
    cacheGet (clear_cache a (cfront ++ [((b, tB, dB), vB)])) (b, tB, dB) = none := by
  have hhit : cacheGet (cfront ++ [((b, tB, dB), vB)]) (b, tB, dB) = some vB := by
    rw [cacheGet_append_of_not_mem _ _ _ hBfront]
    simp [cacheGet]
  have htake : ((((a, tA, dA), vA) :: (cfront ++ [((b, tB, dB), vB)])).take 100) =
      ((a, tA, dA), vA) :: cfront := by
    rw [show (100 : Nat) = 99 + 1 by norm_num, List.take_succ_cons,
      List.take_append_of_le_length (by omega)]
    rw [← hflen, List.take_length]
  have hinsert : cachedTranslate o (cfront ++ [((b, tB, dB), vB)]) a tA dA =
      .ok (vA, ((a, tA, dA), vA) :: cfront, true) := by
    rw [cachedTranslate_miss3 o _ a tA dA vA hfresh hOr, htake]
  have hne : ((a, tA, dA) : TKey) ≠ (b, tB, dB) := by
    intro he
    rw [he, hhit] at hfresh
    cases hfresh
  have hmiss : cacheGet (((a, tA, dA), vA) :: cfront) (b, tB, dB) = none := by
    simp only [cacheGet, if_neg hne]
    rw [cacheGet_eq_none_iff]
    exact hBfront
  exact ⟨hhit, hinsert, hmiss, rfl, rfl⟩

/-- A concrete 99-entry cache segment owned by a third instance. -/
def sharedFront : Cache :=
  (List.range 99).map (fun i => (((2 : Nat), Nat.repr i, Direction.fa_en), "w"))

/-- C10 witnessed: instance 0's insertion into the full shared cache
evicts instance 1's least-recently-used entry. -/
theorem c10_witness :
    cacheGet ((((0 : Nat), "y", Direction.fa_en), "Ty") :: sharedFront)
      ((1 : Nat), "x", Direction.fa_en) = none :=
  (c10 okOracle 0 1 "y" "x" Direction.fa_en Direction.fa_en sharedFront "Ty" "vb"
    (by decide) (by decide) (by decide) rfl).2.2.1

end ChatbotSpec
